import Mathlib

/-!
# Verification of the Passbolt browser-extension import controller

Shallow embedding of `src/all/background_page/controller/import/importController.js`
(class `ImportController`) and proofs of the specification claims about it.

JavaScript strings are modelled as Lean `String`s (lists of characters),
JavaScript numbers in this controller are all non-negative integers and are
modelled as `Nat`, fallible asynchronous calls are modelled as `Except String`
values (the `String` being the error message), and the mutable fields of the
controller object (`this.…`) are threaded explicitly as a `RunState` record.
External collaborators (folder/resource persistence, keyring sync, encryption)
are universally quantified pure functions.
-/

namespace PassboltImport

/-! ## JavaScript string primitives -/

/-- JS `String.prototype.includes` on character lists: does `pat` occur as a
contiguous substring of `l`? -/
def listIncludes (pat : List Char) : List Char → Bool
  | [] => pat.isEmpty
  | c :: rest => pat.isPrefixOf (c :: rest) || listIncludes pat rest

/-- JS `String.prototype.replace` with a plain-string pattern, on character
lists: replace the first (leftmost) occurrence of `pat` by `rep`; if `pat`
does not occur, return the list unchanged. -/
def replaceFirstList (pat rep : List Char) : List Char → List Char
  | [] => if pat.isPrefixOf ([] : List Char) then rep else []
  | c :: rest =>
    if pat.isPrefixOf (c :: rest) then rep ++ (c :: rest).drop pat.length
    else c :: replaceFirstList pat rep rest

/-- JS `s.includes(pat)` on strings. -/
def jsIncludes (s pat : String) : Bool :=
  listIncludes pat.data s.data

/-- JS `s.replace(pat, rep)` (plain-string pattern: first occurrence only). -/
def replaceFirst (s pat rep : String) : String :=
  String.mk (replaceFirstList pat.data rep.data s.data)

/-! ## Path consolidation (`_getConsolidatedPath`) -/

/-- `ImportController._getConsolidatedPath(path)`.  The run's unique import
tag `this.uniqueImportTag` is passed explicitly. -/
def _getConsolidatedPath (uniqueImportTag : String) (path : String) : String :=
  if path = "" ∨ path = "/" then
    -- `if (!path || path === '/')`
    "/" ++ uniqueImportTag
  else if jsIncludes path "/Root/" then
    -- `path.replace("/Root/", "/" + this.uniqueImportTag + "/")`
    replaceFirst path "/Root/" ("/" ++ uniqueImportTag ++ "/")
  else
    -- `"/" + this.uniqueImportTag + '/' + path`
    "/" ++ uniqueImportTag ++ "/" ++ path

/-! ## Unique import tag (`_generateUniqueImportTag`) -/

/-- JS `("0" + n).slice(-2)`: the last two characters of `"0"` followed by
the decimal representation of `n`. -/
def padTwo (n : Nat) : String :=
  let s := "0" ++ toString n
  String.mk (s.data.drop (s.data.length - 2))

/-- `ImportController._generateUniqueImportTag(fileType)`.  The components of
the construction-time `Date` are passed explicitly: `fullYear` is
`getFullYear()`, `monthIdx` is the zero-based `getMonth()`, `dayOfMonth` is
`getDate()`, and `hours`, `minutes`, `seconds` are `getHours()`,
`getMinutes()`, `getSeconds()`.  Note that the source zero-pads the month and
the day (`("0" + x).slice(-2)`) but concatenates hours, minutes and seconds
unpadded (`today.getHours().toString()` etc.). -/
def _generateUniqueImportTag
    (fileType : String) (fullYear monthIdx dayOfMonth hours minutes seconds : Nat) : String :=
  let importDate := toString fullYear ++ padTwo (monthIdx + 1) ++ padTwo dayOfMonth
    ++ toString hours ++ toString minutes ++ toString seconds
  "import-" ++ fileType ++ "-" ++ importDate

/-! ## Folder path list preparation (`_prepareFolders`) -/

/-- The code-unit comparison JS `Array.prototype.sort()` applies to two
strings: `a <= b` in lexicographic order of the scalar values. -/
def lexLe : List Char → List Char → Bool
  | [], _ => true
  | _ :: _, [] => false
  | a :: as, b :: bs =>
    if a.val < b.val then true
    else if b.val < a.val then false
    else lexLe as bs

/-- JS `Array.prototype.sort()` on an array of strings: a stable sort in
lexicographic (code-unit) order. -/
def sortPaths (l : List String) : List String :=
  List.insertionSort (fun a b => lexLe a.data b.data = true) l

/-- `ImportController._prepareFolders()`: consolidate every decoded folder
path, prepend the run's root path when it is not already present, and sort. -/
def _prepareFolders (uniqueImportTag : String) (foldersPaths : List String) : List String :=
  let mapped := foldersPaths.map (_getConsolidatedPath uniqueImportTag)
  let rootPath := _getConsolidatedPath uniqueImportTag "/"
  let withRoot := if mapped.contains rootPath then mapped else rootPath :: mapped
  sortPaths withRoot

/-! ## Folder name / parent derivation (the split performed by `saveFolder`) -/

/-- JS `folderPath.replace(/^\//, '')`: drop one leading `'/'` if present. -/
def stripLeadingSlash (l : List Char) : List Char :=
  match l with
  | [] => []
  | c :: rest => if c = '/' then rest else c :: rest

/-- `folderPath.replace(/^\//, '').split('/')` from `saveFolder`. -/
def folderSplitOf (folderPath : String) : List (List Char) :=
  (stripLeadingSlash folderPath.data).splitOn '/'

/-- `folderName` in `saveFolder`: the popped last segment of the split. -/
def folderNameOf (folderPath : String) : String :=
  String.mk ((folderSplitOf folderPath).getLastD [])

/-- `folderParent` in `saveFolder`: the remaining segments re-joined with
`'/'` and prefixed with `"/"`, or `""` when no segment remains. -/
def folderParentOf (folderPath : String) : String :=
  let fs := (folderSplitOf folderPath).dropLast
  if fs.length = 0 then "" else String.mk ('/' :: List.intercalate ['/'] fs)

/-! ## Data model -/

/-- A folder entity as built by `saveFolder` and returned by
`folderModel.create`.  `id` is filled in by the persistence collaborator. -/
structure FolderEntity where
  name : String := ""
  folderParentId : Option String := none
  id : String := ""
deriving DecidableEq, Repr

/-- An imported resource.  Fields that JS `delete`s (`secretClear`,
`message`, `userId`) are `Option`s, `none` standing for an absent property;
`secrets` is the list of encrypted payloads attached by
`_enrichResourcesWithArmoredSecret` (`[]` = property absent). -/
structure Resource where
  name : String := ""
  secretClear : Option String := none
  folderParentPath : String := ""
  userId : Option String := none
  message : Option String := none
  secrets : List String := []
  folder_parent_id : Option String := none
deriving DecidableEq, Repr

/-- `this.items`: the normalized item set produced by the decoders. -/
structure Items where
  resources : List Resource := []
  foldersPaths : List String := []
deriving DecidableEq, Repr

/-- The mutable fields of the `ImportController` object that the import run
reads and writes (`this.…`), threaded explicitly.  `folders` is the folder
registry `this.folders` (a JS object, modelled as an association list where
the most recent write is the head).  `folderCreateCalls` and
`resourceCreateCalls` record every invocation of the external
`folderModel.create` / `Resource.import` collaborators, in order. -/
structure RunState where
  operationsCount : Nat := 0
  itemsCount : Nat := 0
  currentOperationNumber : Nat := 0
  currentItemNumber : Nat := 0
  currentBatchNumber : Nat := 0
  batchCount : Nat := 0
  folders : List (String × FolderEntity) := []
  folderCreateCalls : List FolderEntity := []
  resourceCreateCalls : List Resource := []
deriving DecidableEq, Repr

/-- Aggregated per-batch / per-run result: `{created: […], errors: […]}`.
An error entry is `{"error": e.header.message, "resource": item}`, modelled
as the pair (message, item). -/
structure ImportResults (β α : Type) where
  created : List β := []
  errors : List (String × α) := []
deriving DecidableEq, Repr

/-! ## Folder and resource workers (`saveFolder`, `saveResource`) -/

/-- `this.folders[path]` lookup (`getFolderFromPath`): first matching key
wins, i.e. the most recent write. -/
def getFolderFromPath (st : RunState) (path : String) : Option FolderEntity :=
  match st.folders.find? (fun kv => kv.1 = path) with
  | some kv => some kv.2
  | none => none

/-- `ImportController.saveFolder(folderPath)`.  `createFolder` is the
external `folderModel.create` collaborator.  A successful run returns the
value the JS promise resolves with — `undefined` (`none`) when the creation
was skipped because the non-empty parent path is not in the registry, or the
created entity — together with the updated state. -/
def saveFolder (createFolder : FolderEntity → Except String FolderEntity)
    (st : RunState) (folderPath : String) : Except String (Option FolderEntity × RunState) :=
  let folderName := folderNameOf folderPath
  let folderParent := folderParentOf folderPath
  if folderParent = "" then
    let folderE : FolderEntity := { name := folderName }
    match createFolder folderE with
    | .error e => .error e
    | .ok created =>
      .ok (some created,
        { st with folders := (folderPath, created) :: st.folders,
                  folderCreateCalls := st.folderCreateCalls ++ [folderE] })
  else
    match getFolderFromPath st folderParent with
    | none => .ok (none, st)
    | some parentFolder =>
      let folderE : FolderEntity := { name := folderName, folderParentId := some parentFolder.id }
      match createFolder folderE with
      | .error e => .error e
      | .ok created =>
        .ok (some created,
          { st with folders := (folderPath, created) :: st.folders,
                    folderCreateCalls := st.folderCreateCalls ++ [folderE] })

/-- `ImportController.saveResource(resource)`.  `importResource` is the
external `Resource.import` collaborator; `importFolders` is
`this.options.importFolders` and `uniqueImportTag` is `this.uniqueImportTag`. -/
def saveResource (importResource : Resource → Except String Resource)
    (importFolders : Bool) (uniqueImportTag : String)
    (st : RunState) (resource : Resource) : Except String (Resource × RunState) :=
  let folderPath := _getConsolidatedPath uniqueImportTag resource.folderParentPath
  let res :=
    match getFolderFromPath st folderPath with
    | some folderExist =>
      if importFolders then { resource with folder_parent_id := some folderExist.id } else resource
    | none => resource
  match importResource res with
  | .error e => .error e
  | .ok created =>
    .ok (created, { st with resourceCreateCalls := st.resourceCreateCalls ++ [res] })

/-! ## Batch machinery (`prepareBatches`, `importBatch`, `processBatches`) -/

/-- `ImportController.prepareBatches(items)` (without the `this.batchCount`
bookkeeping, which is applied by `exec` below): the loop
`for (i = 0, j = 0; i < items.length / batchSize; i++, j += batchSize)
batches.push(items.slice(j, j + batchSize))` runs `⌈length / batchSize⌉`
times and batch `i` is the slice `[i*batchSize, i*batchSize + batchSize)`. -/
def prepareBatches (batchSize : Nat) (items : List α) : List (List α) :=
  (List.range ((items.length + batchSize - 1) / batchSize)).map
    (fun i => (items.drop (i * batchSize)).take batchSize)

/-- The counter/progress bookkeeping both continuation branches of the
per-item promise in `importBatch` perform: `this.currentItemNumber++`,
`this.currentOperationNumber++`, `progressController.update(...)` (an
external UI call, no tracked state). -/
def bumpCounters (st : RunState) : RunState :=
  { st with currentItemNumber := st.currentItemNumber + 1,
            currentOperationNumber := st.currentOperationNumber + 1 }

/-- The per-item loop of `ImportController.importBatch`: each item is passed
to `importFn`; a fulfilled promise appends the resolved value to `created`,
a rejected one appends `{error: message, resource: item}` to `errors`;
both branches bump the shared counters.  The join of the batch's promises is
modelled as processing the items in list order. -/
def importItems (importFn : RunState → α → Except String (β × RunState)) :
    List α → RunState → ImportResults β α × RunState
  | [], st => (⟨[], []⟩, st)
  | item :: rest, st =>
    match importFn st item with
    | .ok (b, st') =>
      let r := importItems importFn rest (bumpCounters st')
      (⟨b :: r.1.created, r.1.errors⟩, r.2)
    | .error e =>
      let r := importItems importFn rest (bumpCounters st)
      (⟨r.1.created, (e, item) :: r.1.errors⟩, r.2)

/-- The `this.currentBatchNumber++` performed on entry to `importBatch`. -/
def bumpBatchNumber (st : RunState) : RunState :=
  { st with currentBatchNumber := st.currentBatchNumber + 1 }

/-- `ImportController.importBatch(batch, batchNumber, importFn)`:
`this.currentBatchNumber++`, then run every item of the batch and join. -/
def importBatch (importFn : RunState → α → Except String (β × RunState))
    (batch : List α) (st : RunState) : ImportResults β α × RunState :=
  importItems importFn batch (bumpBatchNumber st)

/-- `ImportController.processBatches(batches, importFn)`: run the batches
strictly sequentially and concatenate their `created` / `errors` lists. -/
def processBatches (importFn : RunState → α → Except String (β × RunState)) :
    List (List α) → RunState → ImportResults β α × RunState
  | [], st => (⟨[], []⟩, st)
  | batch :: rest, st =>
    let r := importBatch importFn batch st
    let r2 := processBatches importFn rest r.2
    (⟨r.1.created ++ r2.1.created, r.1.errors ++ r2.1.errors⟩, r2.2)

/-! ## The orchestrated stages of `exec` -/

/-- `this.batchSize`, set in the constructor. -/
def batchSize : Nat := 5

/-- `ImportController.prepareProgressCounter()`. -/
def prepareProgressCounter (importFolders : Bool) (items : Items) (st : RunState) : RunState :=
  let st1 := { st with operationsCount := st.operationsCount + items.resources.length * 2,
                       itemsCount := items.resources.length }
  if importFolders then
    { st1 with operationsCount := st1.operationsCount + items.foldersPaths.length,
               itemsCount := st1.itemsCount + items.foldersPaths.length }
  else st1

/-- `ImportController._prepareResources(resources, userId)`: attach `userId`,
move `secretClear` into the transient `message` field, delete `secretClear`. -/
def _prepareResources (resources : List Resource) (userId : String) : List Resource :=
  resources.map fun resource =>
    { resource with userId := some userId, message := resource.secretClear, secretClear := none }

/-- `ImportController._enrichResourcesWithArmoredSecret(armoredSecrets)`:
fatal length check, then per-resource enrichment.  JS compares
`resources[i].message !== ''`, which is true both for a non-empty message and
for an absent (`undefined`) one, hence the `≠ some ""` test; `message` and
`userId` are then deleted in every branch. -/
def _enrichResourcesWithArmoredSecret (resources : List Resource)
    (armoredSecrets : List String) : Except String (List Resource) :=
  if armoredSecrets.length ≠ resources.length then
    .error "There was a problem while encrypting the secrets"
  else
    .ok ((resources.zip armoredSecrets).map fun ra =>
      { ra.1 with
        secrets := if ra.1.message ≠ some "" then [ra.2] else ra.1.secrets,
        message := none, userId := none })

/-- `ImportController.encryptSecretsAndAddToResources()`.  `sync` is the
result of the external `keyring.sync()`, `encryptAll` the external
`crypto.encryptAll` collaborator (returning the armored secrets; its
`onComplete` callback performs `this.currentOperationNumber++` once per
produced payload), `userId` the current user's id.  Note the stage opens
with the assignment `this.operationsCount = this.resources.length * 2`
(not `+=`). -/
def encryptSecretsAndAddToResources (sync : Except String Unit)
    (encryptAll : List Resource → List String) (userId : String)
    (items : Items) (st : RunState) : Except String Items × RunState :=
  let st1 := { st with operationsCount := items.resources.length * 2 }
  match sync with
  | .error e => (.error e, st1)
  | .ok _ =>
    let prepared := _prepareResources items.resources userId
    let armoredSecrets := encryptAll prepared
    let st2 := { st1 with
      currentOperationNumber := st1.currentOperationNumber + armoredSecrets.length }
    match _enrichResourcesWithArmoredSecret prepared armoredSecrets with
    | .error e => (.error e, st2)
    | .ok enriched => (.ok { items with resources := enriched }, st2)

/-! ## `exec` -/

/-- The lifecycle of the progress surface opened by `exec`
(`progressController.open` / `progressController.close`). -/
inductive ProgressEvent
  | opened
  | closed
deriving DecidableEq, Repr

/-- The value `exec` resolves with:
`{resources, folders, importTag}` (`folders` only under folder import). -/
structure ExecReport where
  resources : ImportResults Resource Resource
  folders : Option (ImportResults (Option FolderEntity) String) := none
  importTag : String
deriving DecidableEq, Repr

deriving instance DecidableEq for Except

/-- The observable outcome of one `exec()` run: the resolved report or the
raised error, the final controller state (including the collaborator call
traces), and the progress-surface lifecycle. -/
structure ExecOutcome where
  result : Except String ExecReport
  finalState : RunState
  progressLog : List ProgressEvent
deriving DecidableEq, Repr

/-- `ImportController.exec()`, starting after the external decode step
(`initFromKdbx` / `initFromCsv`) has produced `items0`: prepare the folder
paths, compute the progress counters, open the progress surface, encrypt,
then — inside the `try` — run the folder batches (when `importFolders`) and
the resource batches, close the progress surface and resolve; any error
thrown by the encryption stage reaches the `catch`, which closes the
progress surface and re-raises. -/
def exec (createFolder : FolderEntity → Except String FolderEntity)
    (importResource : Resource → Except String Resource)
    (sync : Except String Unit)
    (encryptAll : List Resource → List String)
    (userId : String) (importFolders : Bool) (uniqueImportTag : String)
    (items0 : Items) : ExecOutcome :=
  let items1 : Items :=
    { items0 with foldersPaths := _prepareFolders uniqueImportTag items0.foldersPaths }
  let st1 := prepareProgressCounter importFolders items1 {}
  match encryptSecretsAndAddToResources sync encryptAll userId items1 st1 with
  | (.error e, st2) =>
    { result := .error e, finalState := st2, progressLog := [.opened, .closed] }
  | (.ok items2, st2) =>
    if importFolders then
      let folderBatches := prepareBatches batchSize items2.foldersPaths
      let st3 := { st2 with batchCount := st2.batchCount + folderBatches.length }
      let rF := processBatches (saveFolder createFolder) folderBatches st3
      let resourceBatches := prepareBatches batchSize items2.resources
      let st4 := { rF.2 with batchCount := rF.2.batchCount + resourceBatches.length }
      let rR := processBatches
        (saveResource importResource importFolders uniqueImportTag) resourceBatches st4
      { result := .ok { resources := rR.1, folders := some rF.1, importTag := uniqueImportTag },
        finalState := rR.2, progressLog := [.opened, .closed] }
    else
      let resourceBatches := prepareBatches batchSize items2.resources
      let st4 := { st2 with batchCount := st2.batchCount + resourceBatches.length }
      let rR := processBatches
        (saveResource importResource importFolders uniqueImportTag) resourceBatches st4
      { result := .ok { resources := rR.1, folders := none, importTag := uniqueImportTag },
        finalState := rR.2, progressLog := [.opened, .closed] }

/-! ## Helper lemmas -/

theorem listIncludes_iff (pat l : List Char) :
    listIncludes pat l = true ↔ ∃ pre post, l = pre ++ pat ++ post := by
  induction l with
  | nil =>
    simp only [listIncludes, List.isEmpty_iff]
    constructor
    · rintro rfl
      exact ⟨[], [], rfl⟩
    · rintro ⟨pre, post, h⟩
      rcases List.append_eq_nil.mp h.symm with ⟨h1, -⟩
      exact (List.append_eq_nil.mp h1).2
  | cons c rest ih =>
    simp only [listIncludes, Bool.or_eq_true, List.isPrefixOf_iff_prefix, ih]
    constructor
    · rintro (⟨t, ht⟩ | ⟨pre, post, rfl⟩)
      · exact ⟨[], t, ht.symm⟩
      · exact ⟨c :: pre, post, rfl⟩
    · rintro ⟨pre, post, h⟩
      cases pre with
      | nil => exact Or.inl ⟨post, by simpa using h.symm⟩
      | cons q qre =>
        simp only [List.cons_append, List.cons.injEq] at h
        exact Or.inr ⟨qre, post, h.2⟩

/-! ## C8 — `_getConsolidatedPath` case analysis -/

/-- **C8**: for every raw path and import tag, `_getConsolidatedPath`
returns `/<importTag>` when the input is empty or `"/"`; returns the input
with the (first occurrence of the) literal segment `/Root/` replaced by
`/<importTag>/` when the input contains `/Root/`; and otherwise returns the
input prefixed with `/<importTag>/`.  Containment is stated abstractly as
the existence of a decomposition `path = pre ++ "/Root/" ++ post`. -/
theorem c8_consolidated_path_spec (uniqueImportTag path : String) :
    ((path = "" ∨ path = "/") →
      _getConsolidatedPath uniqueImportTag path = "/" ++ uniqueImportTag) ∧
    ((∃ pre post, path.data = pre ++ "/Root/".data ++ post) →
      _getConsolidatedPath uniqueImportTag path =
        replaceFirst path "/Root/" ("/" ++ uniqueImportTag ++ "/")) ∧
    (path ≠ "" → path ≠ "/" → (¬ ∃ pre post, path.data = pre ++ "/Root/".data ++ post) →
      _getConsolidatedPath uniqueImportTag path = "/" ++ uniqueImportTag ++ "/" ++ path) := by
  refine ⟨fun h => ?_, fun h => ?_, fun h1 h2 h3 => ?_⟩
  · rw [_getConsolidatedPath, if_pos h]
  · have hge : 6 ≤ path.data.length := by
      obtain ⟨pre, post, hd⟩ := h
      rw [hd]
      simp only [List.length_append]
      rw [show ("/Root/".data).length = 6 from rfl]
      omega
    have hne : ¬ (path = "" ∨ path = "/") := by
      rintro (rfl | rfl) <;> revert hge <;> decide
    have hinc : jsIncludes path "/Root/" = true := (listIncludes_iff _ _).mpr h
    rw [_getConsolidatedPath, if_neg hne, if_pos hinc]
  · have hne : ¬ (path = "" ∨ path = "/") := not_or.mpr ⟨h1, h2⟩
    have hninc : ¬ (jsIncludes path "/Root/" = true) := fun hh =>
      h3 ((listIncludes_iff _ _).mp hh)
    rw [_getConsolidatedPath, if_neg hne, if_neg hninc]

/-- Witness for C8, covering each of the three branches at a concrete
input (`""`, `"a/Root/b"`, `"x"`) with tag `"t"`. -/
theorem c8_witness :
    _getConsolidatedPath "t" "" = "/" ++ "t" ∧
    _getConsolidatedPath "t" "a/Root/b" = replaceFirst "a/Root/b" "/Root/" ("/" ++ "t" ++ "/") ∧
    _getConsolidatedPath "t" "x" = "/" ++ "t" ++ "/" ++ "x" :=
  ⟨(c8_consolidated_path_spec "t" "").1 (Or.inl rfl),
   (c8_consolidated_path_spec "t" "a/Root/b").2.1 ⟨"a".data, "b".data, by decide⟩,
   (c8_consolidated_path_spec "t" "x").2.2 (by decide) (by decide)
     (fun hctr => absurd ((listIncludes_iff _ _).mpr hctr) (by decide))⟩

/-! ## C10 — shape of the generated import tag -/

/-- **C10** (code bug): at construction time 2024-01-01 09:05:07 the
generated tag is `import-csv-20240101957`: the source zero-pads the month
and the day but concatenates hours, minutes and seconds unpadded, so the
date-time suffix here has 11 characters instead of the claimed 14-digit
zero-padded `YYYYMMDDHHMMSS` (`import-csv-20240101090507`). -/
theorem c10_import_tag_not_zero_padded :
    _generateUniqueImportTag "csv" 2024 0 1 9 5 7 = "import-csv-20240101957" ∧
    _generateUniqueImportTag "csv" 2024 0 1 9 5 7 ≠ "import-csv-20240101090507" := by
  constructor
  · decide
  · decide

/-! ## C7 — a parent path sorts strictly before each of its children -/

/-- A list of characters is lexicographically smaller than any proper
extension of itself. -/
theorem list_lt_append_cons (c : Char) (l t : List Char) : l < l ++ c :: t := by
  induction l with
  | nil => exact List.Lex.nil
  | cons a l ih => exact List.Lex.cons ih

theorem intercalate_append_singleton (sep : List α) (x : List α) :
    ∀ (l : List (List α)), l ≠ [] →
      List.intercalate sep (l ++ [x]) = List.intercalate sep l ++ sep ++ x
  | [], h => absurd rfl h
  | [a], _ => by
    simp [List.intercalate, List.intersperse_cons_cons, List.intersperse_singleton]
  | a :: b :: t, _ => by
    have ih := intercalate_append_singleton sep x (b :: t) (by simp)
    simp only [List.intercalate, List.cons_append, List.intersperse_cons_cons,
      List.flatten_cons] at ih ⊢
    rw [ih]
    simp [List.append_assoc]

/-- **C7**: for every folder path starting with `'/'` whose derived parent
path (as computed by `saveFolder`) is non-empty, the parent path is strictly
smaller in the lexicographic string order used by `Array.prototype.sort()`,
hence sorts strictly before the child. -/
theorem c7_parent_sorts_before_child (folderPath : String)
    (hslash : folderPath.data.head? = some '/')
    (hparent : folderParentOf folderPath ≠ "") :
    folderParentOf folderPath < folderPath := by
  obtain ⟨cs, hdata⟩ : ∃ cs, folderPath.data = '/' :: cs := by
    cases hd : folderPath.data with
    | nil => rw [hd] at hslash; simp at hslash
    | cons a t =>
      rw [hd] at hslash
      simp only [List.head?_cons, Option.some.injEq] at hslash
      exact ⟨t, by rw [hslash]⟩
  have hstrip : stripLeadingSlash folderPath.data = cs := by
    rw [hdata, stripLeadingSlash]
    simp
  have hsplit : folderSplitOf folderPath = cs.splitOn '/' := by
    rw [folderSplitOf, hstrip]
  have hne : folderSplitOf folderPath ≠ [] := by
    rw [hsplit, List.splitOn]
    exact List.splitOnP_ne_nil _ _
  have hinitne : (folderSplitOf folderPath).dropLast ≠ [] := by
    intro h0
    apply hparent
    simp only [folderParentOf]
    rw [h0]
    simp
  have hlenne : ¬ ((folderSplitOf folderPath).dropLast.length = 0) := fun h0 =>
    hinitne (List.length_eq_zero.mp h0)
  have hlast := List.dropLast_append_getLast hne
  have hcs : List.intercalate ['/'] (folderSplitOf folderPath) = cs := by
    rw [hsplit]
    exact List.intercalate_splitOn cs '/'
  have hdecomp : cs = List.intercalate ['/'] (folderSplitOf folderPath).dropLast
      ++ '/' :: (folderSplitOf folderPath).getLast hne := by
    conv_lhs => rw [← hcs, ← hlast]
    rw [intercalate_append_singleton ['/'] _ _ hinitne]
    simp
  have hpdata : (folderParentOf folderPath).data =
      '/' :: List.intercalate ['/'] (folderSplitOf folderPath).dropLast := by
    simp only [folderParentOf]
    rw [if_neg hlenne]
  rw [String.lt_iff_toList_lt]
  show (folderParentOf folderPath).data < folderPath.data
  rw [hpdata, hdata, hdecomp]
  exact List.Lex.cons (list_lt_append_cons _ _ _)

/-- Witness for C7 at the concrete child path `"/t/A/B"` (parent `"/t/A"`). -/
theorem c7_witness :
    folderParentOf "/t/A/B" = "/t/A" ∧ folderParentOf "/t/A/B" < "/t/A/B" :=
  ⟨by decide, c7_parent_sorts_before_child "/t/A/B" (by decide) (by decide)⟩

/-! ## C6 — `prepareBatches` partitions the item list -/

theorem prepareBatches_nil (b : Nat) : prepareBatches b ([] : List α) = [] := by
  unfold prepareBatches
  have h0 : (List.length ([] : List α) + b - 1) / b = 0 := by
    cases b with
    | zero => simp
    | succ n =>
      simp only [List.length_nil, Nat.zero_add]
      exact Nat.div_eq_of_lt (by omega)
  rw [h0]
  rfl

/-- Unfolding equation: on a non-empty list the first batch is the first
`b` items and the remaining batches are those of the rest of the list. -/
theorem prepareBatches_cons (b : Nat) (hb : 0 < b) (l : List α) (hl : l ≠ []) :
    prepareBatches b l = l.take b :: prepareBatches b (l.drop b) := by
  obtain ⟨n, hn⟩ : ∃ n, l.length = n + 1 := by
    cases l with
    | nil => exact absurd rfl hl
    | cons x xs => exact ⟨xs.length, rfl⟩
  unfold prepareBatches
  have hcount : (l.length + b - 1) / b = n / b + 1 := by
    rw [hn, show n + 1 + b - 1 = n + b by omega, Nat.add_div_right _ hb]
  have hcount2 : ((l.drop b).length + b - 1) / b = n / b := by
    rw [List.length_drop, hn]
    by_cases hc : b ≤ n + 1
    · rw [show n + 1 - b + b - 1 = n by omega]
    · rw [show n + 1 - b = 0 by omega]
      rw [Nat.div_eq_of_lt (by omega), Nat.div_eq_of_lt (by omega)]
  rw [hcount, hcount2, List.range_succ_eq_map, List.map_cons, List.map_map]
  congr 1
  · simp
  · apply List.map_congr_left
    intro i hi
    simp only [Function.comp_apply]
    rw [List.drop_drop, Nat.succ_mul, Nat.add_comm (i * b) b]

theorem prepareBatches_flatten (b : Nat) (hb : 0 < b) (l : List α) :
    (prepareBatches b l).flatten = l := by
  suffices h : ∀ (n : Nat) (l : List α), l.length = n → (prepareBatches b l).flatten = l from
    h l.length l rfl
  intro n
  induction n using Nat.strong_induction_on with
  | _ n ih =>
    intro l hn
    by_cases hl : l = []
    · subst hl; rw [prepareBatches_nil]; rfl
    · have hlt : (l.drop b).length < n := by
        rw [List.length_drop]
        have := List.length_pos.mpr hl
        omega
      have hrec := ih ((l.drop b).length) hlt (l.drop b) rfl
      rw [prepareBatches_cons b hb l hl, List.flatten_cons, hrec, List.take_append_drop]

theorem prepareBatches_batch_le (b : Nat) (l : List α) :
    ∀ batch ∈ prepareBatches b l, batch.length ≤ b := by
  intro batch hmem
  rw [prepareBatches, List.mem_map] at hmem
  obtain ⟨i, -, rfl⟩ := hmem
  simp only [List.length_take]
  omega

theorem prepareBatches_dropLast_length (b : Nat) (hb : 0 < b) (l : List α) :
    ∀ batch ∈ (prepareBatches b l).dropLast, batch.length = b := by
  suffices h : ∀ (n : Nat) (l : List α), l.length = n →
      ∀ batch ∈ (prepareBatches b l).dropLast, batch.length = b from
    h l.length l rfl
  intro n
  induction n using Nat.strong_induction_on with
  | _ n ih =>
    intro l hn
    by_cases hl : l = []
    · subst hl
      rw [prepareBatches_nil]
      intro batch h
      simp at h
    · rw [prepareBatches_cons b hb l hl]
      by_cases hd : l.drop b = []
      · rw [hd, prepareBatches_nil]
        intro batch h
        simp at h
      · have hlenb : b < l.length := by
          have := List.length_pos.mpr hd
          rw [List.length_drop] at this
          omega
        have hne2 : prepareBatches b (l.drop b) ≠ [] := by
          rw [prepareBatches_cons b hb _ hd]
          exact List.cons_ne_nil _ _
        intro batch h
        rw [List.dropLast_cons_of_ne_nil hne2] at h
        rcases List.mem_cons.mp h with rfl | h2
        · rw [List.length_take]
          omega
        · have hlt : (l.drop b).length < n := by
            rw [List.length_drop]
            have := List.length_pos.mpr hl
            omega
          exact ih ((l.drop b).length) hlt (l.drop b) rfl batch h2

/-- **C6**: for every item list (of any length) and positive batch size,
`prepareBatches` returns batches whose concatenation is the original list in
original order, every batch has length at most `batchSize`, and every batch
except possibly the last has length exactly `batchSize`. -/
theorem c6_prepareBatches_partition (b : Nat) (hb : 0 < b) (l : List α) :
    (prepareBatches b l).flatten = l ∧
    (∀ batch ∈ prepareBatches b l, batch.length ≤ b) ∧
    (∀ batch ∈ (prepareBatches b l).dropLast, batch.length = b) :=
  ⟨prepareBatches_flatten b hb l, prepareBatches_batch_le b l,
    prepareBatches_dropLast_length b hb l⟩

/-- Witness for C6: 12 items with the controller's `batchSize = 5` flatten
back to the original list (batch sizes `[5, 5, 2]`). -/
theorem c6_witness :
    0 < batchSize ∧ (prepareBatches batchSize (List.range 12)).flatten = List.range 12 :=
  ⟨by decide, (c6_prepareBatches_partition batchSize (by decide) (List.range 12)).1⟩

/-! ## Batch-machinery lemmas -/

theorem importItems_append (f : RunState → α → Except String (β × RunState))
    (l1 l2 : List α) (st : RunState) :
    importItems f (l1 ++ l2) st =
      (⟨(importItems f l1 st).1.created ++
          (importItems f l2 (importItems f l1 st).2).1.created,
        (importItems f l1 st).1.errors ++
          (importItems f l2 (importItems f l1 st).2).1.errors⟩,
       (importItems f l2 (importItems f l1 st).2).2) := by
  induction l1 generalizing st with
  | nil => simp [importItems]
  | cons x xs ih =>
    simp only [List.cons_append, importItems]
    cases hf : f st x with
    | ok v =>
      obtain ⟨bv, stv⟩ := v
      simp [ih]
    | error e =>
      simp [ih]

theorem importItems_count (f : RunState → α → Except String (β × RunState))
    (l : List α) (st : RunState) :
    (importItems f l st).1.created.length + (importItems f l st).1.errors.length
      = l.length := by
  induction l generalizing st with
  | nil => simp [importItems]
  | cons x xs ih =>
    simp only [importItems]
    cases hf : f st x with
    | ok v =>
      obtain ⟨bv, stv⟩ := v
      dsimp only
      have := ih (bumpCounters stv)
      simp only [List.length_cons]
      omega
    | error e =>
      dsimp only
      have := ih (bumpCounters st)
      simp only [List.length_cons]
      omega

theorem importItems_errors_sublist (f : RunState → α → Except String (β × RunState))
    (l : List α) (st : RunState) :
    ((importItems f l st).1.errors.map Prod.snd).Sublist l := by
  induction l generalizing st with
  | nil => simp [importItems]
  | cons x xs ih =>
    simp only [importItems]
    cases hf : f st x with
    | ok v =>
      obtain ⟨bv, stv⟩ := v
      dsimp only
      exact List.Sublist.cons x (ih (bumpCounters stv))
    | error e =>
      dsimp only
      exact List.Sublist.cons₂ x (ih (bumpCounters st))

theorem processBatches_append (f : RunState → α → Except String (β × RunState))
    (bs1 bs2 : List (List α)) (st : RunState) :
    processBatches f (bs1 ++ bs2) st =
      (⟨(processBatches f bs1 st).1.created ++
          (processBatches f bs2 (processBatches f bs1 st).2).1.created,
        (processBatches f bs1 st).1.errors ++
          (processBatches f bs2 (processBatches f bs1 st).2).1.errors⟩,
       (processBatches f bs2 (processBatches f bs1 st).2).2) := by
  induction bs1 generalizing st with
  | nil => simp [processBatches]
  | cons bh bt ih => simp [processBatches, ih]

theorem processBatches_count (f : RunState → α → Except String (β × RunState))
    (bs : List (List α)) (st : RunState) :
    (processBatches f bs st).1.created.length + (processBatches f bs st).1.errors.length
      = bs.flatten.length := by
  induction bs generalizing st with
  | nil => simp [processBatches]
  | cons bh bt ih =>
    simp only [processBatches, importBatch, List.flatten_cons, List.length_append]
    have h1 := importItems_count f bh (bumpBatchNumber st)
    have h2 := ih (importItems f bh (bumpBatchNumber st)).2
    omega

theorem processBatches_errors_sublist (f : RunState → α → Except String (β × RunState))
    (bs : List (List α)) (st : RunState) :
    ((processBatches f bs st).1.errors.map Prod.snd).Sublist bs.flatten := by
  induction bs generalizing st with
  | nil => simp [processBatches]
  | cons bh bt ih =>
    simp only [processBatches, importBatch, List.flatten_cons, List.map_append]
    exact List.Sublist.append (importItems_errors_sublist f bh (bumpBatchNumber st)) (ih _)

/-! ## C3 — every input item is accounted for exactly once -/

/-- **C3**: for every item list processed through `processBatches` (over the
batches prepared with the controller's `batchSize`) with any worker, the
`created` and `errors` lists together account for every input item exactly
once: their lengths sum to the input count, and the error entries carry the
failing input items in input order (a sublist of the input, so no item is
duplicated or invented); the remaining items each contributed exactly one
`created` entry. -/
theorem c3_every_item_exactly_once (f : RunState → α → Except String (β × RunState))
    (items : List α) (st : RunState) :
    (processBatches f (prepareBatches batchSize items) st).1.created.length +
        (processBatches f (prepareBatches batchSize items) st).1.errors.length
      = items.length ∧
    ((processBatches f (prepareBatches batchSize items) st).1.errors.map Prod.snd).Sublist
      items := by
  have hflat := prepareBatches_flatten batchSize (by decide) items
  constructor
  · rw [processBatches_count, hflat]
  · have h := processBatches_errors_sublist f (prepareBatches batchSize items) st
    rwa [hflat] at h

/-! ## C4 — a rejected item aborts neither its siblings nor later batches -/

/-- **C4**: in any run of `processBatches`, if the worker rejects item `x`
of some batch (decomposed as preceding batches `bs1`, siblings `pre` and
`post`, following batches `bs2`), the failure contributes exactly the
per-item entry `(e, x)` to `errors` and nothing to `created`, while all
sibling items and all subsequent batches are still processed to completion,
from the state `x` left untouched (only the shared counters are bumped). -/
theorem c4_rejected_item_does_not_abort (f : RunState → α → Except String (β × RunState))
    (bs1 : List (List α)) (pre : List α) (x : α) (post : List α) (bs2 : List (List α))
    (st : RunState) (e : String)
    (hx : f (importItems f pre (bumpBatchNumber (processBatches f bs1 st).2)).2 x
      = .error e) :
    processBatches f (bs1 ++ (pre ++ x :: post) :: bs2) st =
      (let r1 := processBatches f bs1 st
       let a := importItems f pre (bumpBatchNumber r1.2)
       let c := importItems f post (bumpCounters a.2)
       let r2 := processBatches f bs2 c.2
       (⟨r1.1.created ++ (a.1.created ++ c.1.created) ++ r2.1.created,
         r1.1.errors ++ (a.1.errors ++ (e, x) :: c.1.errors) ++ r2.1.errors⟩, r2.2)) := by
  rw [processBatches_append]
  simp only [processBatches, importBatch, importItems_append, importItems, hx]
  simp [List.append_assoc]

/-- The concrete worker used to witness C4 and the spec's 12-resource
scenario: it persists a `Nat` item unchanged but rejects item `7`. -/
def rejectSevenWorker (st : RunState) (n : Nat) : Except String (Nat × RunState) :=
  if n = 7 then .error "boom" else .ok (n, st)

/-- Witness for C4: 12 items in batches of 5 (`[5, 5, 2]`-split as in the
spec scenario), with item `7` of the second batch rejected: the run yields
11 created items and the single error entry, and the third batch is still
processed. -/
theorem c4_witness :
    rejectSevenWorker
        (importItems rejectSevenWorker [5, 6]
          (bumpBatchNumber (processBatches rejectSevenWorker [[0, 1, 2, 3, 4]] {}).2)).2 7
      = .error "boom" ∧
    processBatches rejectSevenWorker ([[0, 1, 2, 3, 4]] ++ ([5, 6] ++ 7 :: [8, 9]) :: [[10, 11]]) {} =
      (let r1 := processBatches rejectSevenWorker [[0, 1, 2, 3, 4]] {}
       let a := importItems rejectSevenWorker [5, 6] (bumpBatchNumber r1.2)
       let c := importItems rejectSevenWorker [8, 9] (bumpCounters a.2)
       let r2 := processBatches rejectSevenWorker [[10, 11]] c.2
       (⟨r1.1.created ++ (a.1.created ++ c.1.created) ++ r2.1.created,
         r1.1.errors ++ (a.1.errors ++ ("boom", 7) :: c.1.errors) ++ r2.1.errors⟩, r2.2)) :=
  ⟨by decide,
   c4_rejected_item_does_not_abort rejectSevenWorker [[0, 1, 2, 3, 4]] [5, 6] 7 [8, 9]
     [[10, 11]] {} "boom" (by decide)⟩

/-! ## C1 — folder creation with an unregistered parent is silently skipped -/

/-- `saveFolder` on a path whose derived parent path is non-empty and absent
from the folder registry resolves (no rejection) with `undefined` (`none`),
leaving the state untouched and calling no collaborator. -/
theorem saveFolder_skip (createFolder : FolderEntity → Except String FolderEntity)
    (st : RunState) (p : String)
    (hparent : folderParentOf p ≠ "")
    (hmiss : getFolderFromPath st (folderParentOf p) = none) :
    saveFolder createFolder st p = .ok (none, st) := by
  simp only [saveFolder]
  rw [if_neg hparent, hmiss]

/-- **C1**: in any folder run of `processBatches` with `saveFolder`
(decomposed as preceding batches `bs1`, siblings `pre` and `post` and later
batches `bs2`), a folder path `p` whose parent path is non-empty and not in
the registry at the moment `p` is processed is skipped without raising: the
run completes, `p` contributes no entry to `errors` and no folder entity to
`created` (only the `undefined` its resolved promise pushes, modelled as
`none`), the registry is unchanged by `p`, and all remaining items and
batches are still processed. -/
theorem c1_unregistered_parent_skips (createFolder : FolderEntity → Except String FolderEntity)
    (bs1 : List (List String)) (pre : List String) (p : String) (post : List String)
    (bs2 : List (List String)) (st : RunState)
    (hparent : folderParentOf p ≠ "")
    (hmiss : getFolderFromPath
        (importItems (saveFolder createFolder) pre
          (bumpBatchNumber (processBatches (saveFolder createFolder) bs1 st).2)).2
        (folderParentOf p) = none) :
    processBatches (saveFolder createFolder) (bs1 ++ (pre ++ p :: post) :: bs2) st =
      (let r1 := processBatches (saveFolder createFolder) bs1 st
       let a := importItems (saveFolder createFolder) pre (bumpBatchNumber r1.2)
       let c := importItems (saveFolder createFolder) post (bumpCounters a.2)
       let r2 := processBatches (saveFolder createFolder) bs2 c.2
       (⟨r1.1.created ++ (a.1.created ++ none :: c.1.created) ++ r2.1.created,
         r1.1.errors ++ (a.1.errors ++ c.1.errors) ++ r2.1.errors⟩, r2.2)) := by
  have hskip := saveFolder_skip createFolder
    (importItems (saveFolder createFolder) pre
      (bumpBatchNumber (processBatches (saveFolder createFolder) bs1 st).2)).2
    p hparent hmiss
  rw [processBatches_append]
  simp only [processBatches, importBatch, importItems_append, importItems, hskip]
  simp [List.append_assoc]

/-- A persistence collaborator for the C1 witness: creates every folder,
assigning id `"f1"`. -/
def alwaysOkCreateFolder : FolderEntity → Except String FolderEntity :=
  fun folderE => .ok { folderE with id := "f1" }

/-- Witness for C1: the single path `"/t/A/B"` is processed while its parent
`"/t/A"` was never registered (empty registry); it lands in neither list as
an entity nor as an error — `created` receives only the resolved
`undefined`. -/
theorem c1_witness :
    folderParentOf "/t/A/B" ≠ "" ∧
    getFolderFromPath
        (importItems (saveFolder alwaysOkCreateFolder) []
          (bumpBatchNumber (processBatches (saveFolder alwaysOkCreateFolder) [] {}).2)).2
        (folderParentOf "/t/A/B") = none ∧
    processBatches (saveFolder alwaysOkCreateFolder) ([] ++ ([] ++ "/t/A/B" :: []) :: []) {} =
      (let r1 := processBatches (saveFolder alwaysOkCreateFolder) [] {}
       let a := importItems (saveFolder alwaysOkCreateFolder) [] (bumpBatchNumber r1.2)
       let c := importItems (saveFolder alwaysOkCreateFolder) [] (bumpCounters a.2)
       let r2 := processBatches (saveFolder alwaysOkCreateFolder) [] c.2
       (⟨r1.1.created ++ (a.1.created ++ none :: c.1.created) ++ r2.1.created,
         r1.1.errors ++ (a.1.errors ++ c.1.errors) ++ r2.1.errors⟩, r2.2)) :=
  ⟨by decide, by decide,
   c1_unregistered_parent_skips alwaysOkCreateFolder [] [] "/t/A/B" [] [] {}
     (by decide) (by decide)⟩

/-! ## C9 — multiplicity of the root path after `_prepareFolders` -/

theorem sortPaths_count (l : List String) (s : String) :
    (sortPaths l).count s = l.count s :=
  (List.perm_insertionSort _ l).count_eq s

/-- **C9 counterexample**: with tag `"t"` and the decoded folder-path list
`["/", "/"]` — two raw paths that both consolidate to the root — the list
produced by `_prepareFolders` contains the root path `"/t"` twice, not
exactly once. -/
theorem c9_counterexample :
    (_prepareFolders "t" ["/", "/"]).count (_getConsolidatedPath "t" "/") = 2 ∧
    ¬ (_prepareFolders "t" ["/", "/"]).count (_getConsolidatedPath "t" "/") = 1 := by
  constructor <;> decide

/-- **C9 amended**: after `_prepareFolders` the run's root path occurs in
the folder-path list at least once, and exactly once provided no decoded raw
path itself consolidates to the root (the root is *inserted* at most once,
but raw paths consolidating to the root are kept as duplicates). -/
theorem c9_root_once_amended (uniqueImportTag : String) (foldersPaths : List String) :
    1 ≤ (_prepareFolders uniqueImportTag foldersPaths).count
        (_getConsolidatedPath uniqueImportTag "/") ∧
    ((∀ p ∈ foldersPaths,
        _getConsolidatedPath uniqueImportTag p ≠ _getConsolidatedPath uniqueImportTag "/") →
      (_prepareFolders uniqueImportTag foldersPaths).count
        (_getConsolidatedPath uniqueImportTag "/") = 1) := by
  simp only [_prepareFolders]
  constructor
  · by_cases hc : (foldersPaths.map (_getConsolidatedPath uniqueImportTag)).contains
        (_getConsolidatedPath uniqueImportTag "/") = true
    · rw [if_pos hc, sortPaths_count]
      have hmem : _getConsolidatedPath uniqueImportTag "/" ∈
          foldersPaths.map (_getConsolidatedPath uniqueImportTag) := List.elem_iff.mp hc
      have := List.count_pos_iff.mpr hmem
      omega
    · rw [if_neg hc, sortPaths_count, List.count_cons_self]
      omega
  · intro hall
    have hnotmem : _getConsolidatedPath uniqueImportTag "/" ∉
        foldersPaths.map (_getConsolidatedPath uniqueImportTag) := by
      intro hm
      obtain ⟨p, hp, hpe⟩ := List.mem_map.mp hm
      exact hall p hp hpe
    have hc : ¬ ((foldersPaths.map (_getConsolidatedPath uniqueImportTag)).contains
        (_getConsolidatedPath uniqueImportTag "/") = true) := fun hcc =>
      hnotmem (List.elem_iff.mp hcc)
    rw [if_neg hc, sortPaths_count, List.count_cons_self, List.count_eq_zero.mpr hnotmem]

/-- Witness for C9 (amended): with tag `"t"` and the decoded list `["A"]`
(no raw path consolidating to the root), the root occurs exactly once. -/
theorem c9_witness :
    (∀ p ∈ ["A"], _getConsolidatedPath "t" p ≠ _getConsolidatedPath "t" "/") ∧
    (_prepareFolders "t" ["A"]).count (_getConsolidatedPath "t" "/") = 1 :=
  ⟨by decide, (c9_root_once_amended "t" ["A"]).2 (by decide)⟩

/-! ## Counter bookkeeping lemmas -/

/-- Workers that never write the shared progress counters: whenever the
worker succeeds, the returned state carries the caller's
`currentOperationNumber`, `currentItemNumber` and `operationsCount`
unchanged.  Both `saveFolder` and `saveResource` are such workers — only
`importBatch`'s continuations bump the counters. -/
def PreservesCounters (f : RunState → α → Except String (β × RunState)) : Prop :=
  ∀ st a b st', f st a = .ok (b, st') →
    st'.currentOperationNumber = st.currentOperationNumber ∧
    st'.currentItemNumber = st.currentItemNumber ∧
    st'.operationsCount = st.operationsCount

theorem saveFolder_preservesCounters (createFolder : FolderEntity → Except String FolderEntity) :
    PreservesCounters (saveFolder createFolder) := by
  intro st a b st' h
  simp only [saveFolder] at h
  split at h
  · split at h
    · simp at h
    · simp only [Except.ok.injEq, Prod.mk.injEq] at h
      obtain ⟨-, rfl⟩ := h
      exact ⟨rfl, rfl, rfl⟩
  · split at h
    · simp only [Except.ok.injEq, Prod.mk.injEq] at h
      obtain ⟨-, rfl⟩ := h
      exact ⟨rfl, rfl, rfl⟩
    · split at h
      · simp at h
      · simp only [Except.ok.injEq, Prod.mk.injEq] at h
        obtain ⟨-, rfl⟩ := h
        exact ⟨rfl, rfl, rfl⟩

theorem saveResource_preservesCounters (importResource : Resource → Except String Resource)
    (importFolders : Bool) (uniqueImportTag : String) :
    PreservesCounters (saveResource importResource importFolders uniqueImportTag) := by
  intro st a b st' h
  simp only [saveResource] at h
  split at h
  · simp at h
  · simp only [Except.ok.injEq, Prod.mk.injEq] at h
    obtain ⟨-, rfl⟩ := h
    exact ⟨rfl, rfl, rfl⟩

theorem importItems_counters (f : RunState → α → Except String (β × RunState))
    (hf : PreservesCounters f) (l : List α) (st : RunState) :
    st.currentOperationNumber ≤ (importItems f l st).2.currentOperationNumber ∧
    st.currentItemNumber ≤ (importItems f l st).2.currentItemNumber ∧
    (importItems f l st).2.operationsCount = st.operationsCount := by
  induction l generalizing st with
  | nil => simp [importItems]
  | cons x xs ih =>
    simp only [importItems]
    cases hx : f st x with
    | ok v =>
      obtain ⟨bv, stv⟩ := v
      dsimp only
      obtain ⟨h1, h2, h3⟩ := hf st x bv stv hx
      obtain ⟨g1, g2, g3⟩ := ih (bumpCounters stv)
      have b1 : (bumpCounters stv).currentOperationNumber = stv.currentOperationNumber + 1 := rfl
      have b2 : (bumpCounters stv).currentItemNumber = stv.currentItemNumber + 1 := rfl
      have b3 : (bumpCounters stv).operationsCount = stv.operationsCount := rfl
      exact ⟨by omega, by omega, by omega⟩
    | error e =>
      dsimp only
      obtain ⟨g1, g2, g3⟩ := ih (bumpCounters st)
      have b1 : (bumpCounters st).currentOperationNumber = st.currentOperationNumber + 1 := rfl
      have b2 : (bumpCounters st).currentItemNumber = st.currentItemNumber + 1 := rfl
      have b3 : (bumpCounters st).operationsCount = st.operationsCount := rfl
      exact ⟨by omega, by omega, by omega⟩

theorem processBatches_counters (f : RunState → α → Except String (β × RunState))
    (hf : PreservesCounters f) (bs : List (List α)) (st : RunState) :
    st.currentOperationNumber ≤ (processBatches f bs st).2.currentOperationNumber ∧
    st.currentItemNumber ≤ (processBatches f bs st).2.currentItemNumber ∧
    (processBatches f bs st).2.operationsCount = st.operationsCount := by
  induction bs generalizing st with
  | nil => simp [processBatches]
  | cons bh bt ih =>
    simp only [processBatches, importBatch]
    obtain ⟨h1, h2, h3⟩ := importItems_counters f hf bh (bumpBatchNumber st)
    obtain ⟨g1, g2, g3⟩ := ih (importItems f bh (bumpBatchNumber st)).2
    have b1 : (bumpBatchNumber st).currentOperationNumber = st.currentOperationNumber := rfl
    have b2 : (bumpBatchNumber st).currentItemNumber = st.currentItemNumber := rfl
    have b3 : (bumpBatchNumber st).operationsCount = st.operationsCount := rfl
    exact ⟨by omega, by omega, by omega⟩

/-! ## C2 — monotonicity of the progress counters -/

/-- **C2 counterexample**: in a run with folder import enabled, one resource
and two folder paths, `prepareProgressCounter` sets `operationsCount` to
`1 * 2 + 2 = 4`, and the very next stage (`encryptSecretsAndAddToResources`,
via its assignment `this.operationsCount = this.resources.length * 2`)
lowers it to `2` — so a stage assignment does lower `operationsCount` after
`prepareProgressCounter` has set it. -/
theorem c2_counterexample :
    (let items : Items := { resources := [{}], foldersPaths := ["/t", "/t/A"] }
     let st1 := prepareProgressCounter true items {}
     let st2 := (encryptSecretsAndAddToResources (.ok ()) (fun rs => rs.map fun _ => "armored")
       "u1" items st1).2
     st2.operationsCount < st1.operationsCount) := by
  decide

/-- The state left by the encryption stage: `currentItemNumber` untouched,
`currentOperationNumber` only ever bumped (by the `onComplete` callbacks),
and `operationsCount` reassigned to twice the resource count — whether or
not the stage succeeded. -/
theorem encryptSecrets_state_spec (sync : Except String Unit)
    (encryptAll : List Resource → List String) (userId : String)
    (items : Items) (st : RunState) :
    (encryptSecretsAndAddToResources sync encryptAll userId items st).2.currentItemNumber
        = st.currentItemNumber ∧
    st.currentOperationNumber
        ≤ (encryptSecretsAndAddToResources sync encryptAll userId items st).2.currentOperationNumber ∧
    (encryptSecretsAndAddToResources sync encryptAll userId items st).2.operationsCount
        = items.resources.length * 2 := by
  cases sync with
  | error e => simp [encryptSecretsAndAddToResources]
  | ok u =>
    simp only [encryptSecretsAndAddToResources]
    cases henr : _enrichResourcesWithArmoredSecret
        (_prepareResources items.resources userId)
        (encryptAll (_prepareResources items.resources userId)) with
    | error e => simp [henr]
    | ok enriched => simp [henr]

/-- `operationsCount` and the current counters after `prepareProgressCounter`
on the freshly constructed state. -/
theorem prepareProgressCounter_spec (importFolders : Bool) (items : Items) :
    (prepareProgressCounter importFolders items {}).operationsCount
        = items.resources.length * 2 + (if importFolders then items.foldersPaths.length else 0) ∧
    (prepareProgressCounter importFolders items {}).currentOperationNumber = 0 ∧
    (prepareProgressCounter importFolders items {}).currentItemNumber = 0 := by
  cases importFolders <;> simp [prepareProgressCounter]

/-- **C2 amended**: along `exec`'s stage sequence — counter preparation
(`st1`), encryption (`st2`), folder batches (`st3`), resource batches
(`st4`, over whatever resource list the encryption stage produced) —
`currentOperationNumber` and `currentItemNumber` are monotonically
non-decreasing; `operationsCount`, however, is reassigned to `2 × resources`
by the encryption stage — a decrease of exactly the folder-path count
whenever folder import is enabled — and is never written again afterwards. -/
theorem c2_counters_amended
    (createFolder : FolderEntity → Except String FolderEntity)
    (importResource : Resource → Except String Resource)
    (sync : Except String Unit) (encryptAll : List Resource → List String)
    (userId : String) (importFolders : Bool) (uniqueImportTag : String)
    (items0 : Items) (encryptedResources : List Resource)
    (items1 : Items) (st1 st2 st3 st4 : RunState)
    (_h1 : items1 =
      { items0 with foldersPaths := _prepareFolders uniqueImportTag items0.foldersPaths })
    (h2 : st1 = prepareProgressCounter importFolders items1 {})
    (h3 : st2 = (encryptSecretsAndAddToResources sync encryptAll userId items1 st1).2)
    (h4 : st3 = (processBatches (saveFolder createFolder)
        (prepareBatches batchSize items1.foldersPaths)
        { st2 with batchCount := st2.batchCount
            + (prepareBatches batchSize items1.foldersPaths).length }).2)
    (h5 : st4 = (processBatches (saveResource importResource importFolders uniqueImportTag)
        (prepareBatches batchSize encryptedResources)
        { st3 with batchCount := st3.batchCount
            + (prepareBatches batchSize encryptedResources).length }).2) :
    (st1.currentOperationNumber ≤ st2.currentOperationNumber ∧
     st2.currentOperationNumber ≤ st3.currentOperationNumber ∧
     st3.currentOperationNumber ≤ st4.currentOperationNumber) ∧
    (st1.currentItemNumber ≤ st2.currentItemNumber ∧
     st2.currentItemNumber ≤ st3.currentItemNumber ∧
     st3.currentItemNumber ≤ st4.currentItemNumber) ∧
    (st2.operationsCount = items1.resources.length * 2 ∧
     st1.operationsCount
       = st2.operationsCount + (if importFolders then items1.foldersPaths.length else 0) ∧
     st3.operationsCount = st2.operationsCount ∧
     st4.operationsCount = st3.operationsCount) := by
  obtain ⟨e1, e2, e3⟩ := encryptSecrets_state_spec sync encryptAll userId items1 st1
  rw [← h3] at e1 e2 e3
  obtain ⟨p1, p2, p3⟩ := prepareProgressCounter_spec importFolders items1
  rw [← h2] at p1 p2 p3
  obtain ⟨f1, f2, f3⟩ := processBatches_counters (saveFolder createFolder)
    (saveFolder_preservesCounters createFolder)
    (prepareBatches batchSize items1.foldersPaths)
    { st2 with batchCount := st2.batchCount
        + (prepareBatches batchSize items1.foldersPaths).length }
  rw [← h4] at f1 f2 f3
  dsimp only at f1 f2 f3
  obtain ⟨g1, g2, g3⟩ := processBatches_counters
    (saveResource importResource importFolders uniqueImportTag)
    (saveResource_preservesCounters importResource importFolders uniqueImportTag)
    (prepareBatches batchSize encryptedResources)
    { st3 with batchCount := st3.batchCount
        + (prepareBatches batchSize encryptedResources).length }
  rw [← h5] at g1 g2 g3
  dsimp only at g1 g2 g3
  refine ⟨⟨?_, f1, g1⟩, ⟨?_, f2, g2⟩, e3, ?_, f3, g3⟩
  · omega
  · omega
  · omega

/-- A persistence collaborator for witnesses: accepts every resource. -/
def alwaysOkImportResource : Resource → Except String Resource :=
  fun resource => .ok resource

/-- Witness for C2 (amended), on a concrete folders-enabled run with one
resource and one decoded folder path. -/
theorem c2_witness :
    (let items1 : Items :=
       { ({ resources := [{}], foldersPaths := ["A"] } : Items) with
         foldersPaths := _prepareFolders "t" ["A"] }
     let st1 := prepareProgressCounter true items1 {}
     let st2 := (encryptSecretsAndAddToResources (.ok ()) (fun rs => rs.map fun _ => "s")
       "u" items1 st1).2
     let st3 := (processBatches (saveFolder alwaysOkCreateFolder)
       (prepareBatches batchSize items1.foldersPaths)
       { st2 with batchCount := st2.batchCount
           + (prepareBatches batchSize items1.foldersPaths).length }).2
     let st4 := (processBatches (saveResource alwaysOkImportResource true "t")
       (prepareBatches batchSize ([{}] : List Resource))
       { st3 with batchCount := st3.batchCount
           + (prepareBatches batchSize ([{}] : List Resource)).length }).2
     (st1.currentOperationNumber ≤ st2.currentOperationNumber ∧
      st2.currentOperationNumber ≤ st3.currentOperationNumber ∧
      st3.currentOperationNumber ≤ st4.currentOperationNumber) ∧
     (st1.currentItemNumber ≤ st2.currentItemNumber ∧
      st2.currentItemNumber ≤ st3.currentItemNumber ∧
      st3.currentItemNumber ≤ st4.currentItemNumber) ∧
     (st2.operationsCount = items1.resources.length * 2 ∧
      st1.operationsCount
        = st2.operationsCount + (if true then items1.foldersPaths.length else 0) ∧
      st3.operationsCount = st2.operationsCount ∧
      st4.operationsCount = st3.operationsCount)) := by
  exact c2_counters_amended alwaysOkCreateFolder alwaysOkImportResource (.ok ())
    (fun rs => rs.map fun _ => "s") "u" true "t"
    { resources := [{}], foldersPaths := ["A"] } [{}]
    _ _ _ _ _ rfl rfl rfl rfl rfl

/-! ## C5 — an encryption-count mismatch aborts the run before any write -/

/-- **C5**: if the encryption collaborator returns a payload list whose
length differs from the resource list's length, `exec` raises the
run-level data-integrity error, the progress surface (opened at the start
of the run) is closed, and neither the folder-creation nor the
resource-creation collaborator is ever invoked in that run. -/
theorem c5_encryption_mismatch_aborts
    (createFolder : FolderEntity → Except String FolderEntity)
    (importResource : Resource → Except String Resource)
    (encryptAll : List Resource → List String)
    (userId : String) (importFolders : Bool) (uniqueImportTag : String) (items0 : Items)
    (hlen : (encryptAll (_prepareResources items0.resources userId)).length
      ≠ items0.resources.length) :
    (exec createFolder importResource (.ok ()) encryptAll userId importFolders
        uniqueImportTag items0).result
      = .error "There was a problem while encrypting the secrets" ∧
    (exec createFolder importResource (.ok ()) encryptAll userId importFolders
        uniqueImportTag items0).finalState.folderCreateCalls = [] ∧
    (exec createFolder importResource (.ok ()) encryptAll userId importFolders
        uniqueImportTag items0).finalState.resourceCreateCalls = [] ∧
    (exec createFolder importResource (.ok ()) encryptAll userId importFolders
        uniqueImportTag items0).progressLog = [ProgressEvent.opened, ProgressEvent.closed] := by
  have hcond : (encryptAll (_prepareResources items0.resources userId)).length
      ≠ (_prepareResources items0.resources userId).length := by
    simpa [_prepareResources, List.length_map] using hlen
  cases importFolders <;>
    simp [exec, encryptSecretsAndAddToResources, _enrichResourcesWithArmoredSecret,
      prepareProgressCounter, if_pos hcond]

/-- An encryption collaborator for the C5 witness: it returns no payload at
all, mismatching any non-empty resource list. -/
def emptyEncryptAll : List Resource → List String :=
  fun _ => []

/-- Witness for C5: one resource, zero payloads — the run errors out with
the progress surface closed and no persistence call made. -/
theorem c5_witness :
    (emptyEncryptAll (_prepareResources ({ resources := [{}] } : Items).resources "u")).length
        ≠ ({ resources := [{}] } : Items).resources.length ∧
    ((exec alwaysOkCreateFolder alwaysOkImportResource (.ok ()) emptyEncryptAll "u" true "t"
        { resources := [{}] }).result
      = .error "There was a problem while encrypting the secrets" ∧
     (exec alwaysOkCreateFolder alwaysOkImportResource (.ok ()) emptyEncryptAll "u" true "t"
        { resources := [{}] }).finalState.folderCreateCalls = [] ∧
     (exec alwaysOkCreateFolder alwaysOkImportResource (.ok ()) emptyEncryptAll "u" true "t"
        { resources := [{}] }).finalState.resourceCreateCalls = [] ∧
     (exec alwaysOkCreateFolder alwaysOkImportResource (.ok ()) emptyEncryptAll "u" true "t"
        { resources := [{}] }).progressLog = [ProgressEvent.opened, ProgressEvent.closed]) :=
  ⟨by decide,
   c5_encryption_mismatch_aborts alwaysOkCreateFolder alwaysOkImportResource emptyEncryptAll
     "u" true "t" { resources := [{}] } (by decide)⟩

end PassboltImport
